import Mathlib

/-!
Shallow embedding of the pairwise-judging core of the gavel application
(gavel/controllers/judge.py together with the model rows of
gavel/models/annotator.py and gavel/models/applicant.py).

Database rows become plain Lean structures; the shared database becomes an
explicit `DB` value threaded through each transition.  The external module
`gavel.crowd_bt` (the Bayesian engine: `update`, `expected_information_gain`,
`EPSILON`, `argmax`) is not part of the judged source tree, so the transitions
are parameterised over the update and gain functions, over the injected
randomness (the shuffle permutation and the uniform draw), and over the
configuration constants `TIMEOUT` and `MIN_VIEWS` from `gavel.settings`.
Python code paths that raise (attribute access on a missing row) are embedded
as `Except.error ()`.
-/

namespace Gavel

/-- An `Applicant` row: only the fields read or written by the judging core
(gavel/models/applicant.py).  `viewed` is the `applicant_view` relation as the
list of annotator ids appended so far. -/
structure Applicant where
  id : Nat
  active : Bool
  prioritized : Bool
  viewed : List Nat
  mu : Rat
  sigma_sq : Rat
deriving Repr, DecidableEq

/-- An `Annotator` (judge) row (gavel/models/annotator.py).  `prev` and `next`
hold applicant ids (the foreign keys `prev_id` / `next_id`), `updated` the
assignment timestamp in UTC seconds, `ignore` the `ignore` relation as the
list of applicant ids appended so far. -/
structure Annotator where
  id : Nat
  active : Bool
  alpha : Rat
  beta : Rat
  prev : Option Nat
  next : Option Nat
  updated : Option Int
  ignore : List Nat
deriving Repr, DecidableEq

/-- A `Decision` row: judge, winner applicant, loser applicant. -/
structure Decision where
  annotator_id : Nat
  winner_id : Nat
  loser_id : Nat
deriving Repr, DecidableEq

/-- The shared database state read and mutated by the transitions. -/
structure DB where
  applicants : List Applicant
  annotators : List Annotator
  decisions : List Decision
deriving Repr, DecidableEq

/-- Look up an applicant row by id (`Applicant.by_id` / relationship access). -/
def findApplicant (db : DB) (i : Nat) : Option Applicant :=
  db.applicants.find? (fun x => x.id == i)

/-- Look up an annotator row by id (`Annotator.by_id`). -/
def findAnnotator (db : DB) (i : Nat) : Option Annotator :=
  db.annotators.find? (fun x => x.id == i)

/-- In-place mutation of the applicant row with id `i` (the Python code mutates
the live ORM row object; here the row with that id is rewritten). -/
def mapApplicant (db : DB) (i : Nat) (f : Applicant → Applicant) : DB :=
  { db with applicants := db.applicants.map (fun x => if x.id = i then f x else x) }

/-- Commit of the mutated annotator row back into the database. -/
def setAnnotator (db : DB) (j : Annotator) : DB :=
  { db with annotators := db.annotators.map (fun x => if x.id = j.id then j else x) }

/-- The signature of `crowd_bt.update` (external to the judged sources):
`(alpha, beta, winner_mu, winner_sigma_sq, loser_mu, loser_sigma_sq)` in,
the six updated values out. -/
abbrev UpdateFn := Rat → Rat → Rat → Rat → Rat → Rat → Rat × Rat × Rat × Rat × Rat × Rat

/-- The signature of `crowd_bt.expected_information_gain` (external to the
judged sources): `(alpha, beta, ref_mu, ref_sigma_sq, cand_mu, cand_sigma_sq)`
in, a score out. -/
abbrev GainFn := Rat → Rat → Rat → Rat → Rat → Rat → Rat

/-- The ambient context of a transition: the injected external functions,
the injected randomness, the wall clock, and the configuration constants. -/
structure Ctx where
  upd : UpdateFn
  egain : GainFn
  shuffleFn : List Applicant → List Applicant
  r : Rat
  eps : Rat
  now : Int
  timeout : Int
  min_views : Nat

/-- Ids of applicants currently assigned as `next` to an active annotator whose
`updated` timestamp is within `timeout` minutes: the busy-set scan of
`preferred_applicants` (judge.py lines 213-217).  Note the scan ranges over
every active annotator row, the calling judge included. -/
def busyIds (db : DB) (now timeout : Int) : List Nat :=
  db.annotators.filterMap (fun a =>
    match a.next, a.updated with
    | some nid, some u => if a.active && decide (now - u < timeout * 60) then some nid else none
    | _, _ => none)

/-- The candidate-pool computation `preferred_applicants(annotator)`
(judge.py lines 191-224).  The two SQL branches on `ignored_ids` being empty
produce the same filter, embedded once. -/
def preferred_applicants (ctx : Ctx) (db : DB) (j : Annotator) : List Applicant :=
  let available := db.applicants.filter (fun a => a.active && !(j.ignore.contains a.id))
  let prioritizedApps := available.filter (fun a => a.prioritized)
  let applicants := if prioritizedApps.isEmpty then available else prioritizedApps
  let busy := busyIds db ctx.now ctx.timeout
  let nonbusy := applicants.filter (fun a => !(busy.contains a.id))
  let preferred := if nonbusy.isEmpty then applicants else nonbusy
  let less_seen := preferred.filter (fun a => a.viewed.length < ctx.min_views)
  if less_seen.isEmpty then preferred else less_seen

/-- Busy-set scan as worded by the specification: applicants assigned as `next`
to some OTHER active judge, i.e. the row of the judge `j` itself is excluded
from the scan.  Written to compare against `busyIds`, which the code uses. -/
def busyIdsOther (db : DB) (jid : Nat) (now timeout : Int) : List Nat :=
  db.annotators.filterMap (fun a =>
    match a.next, a.updated with
    | some nid, some u =>
        if a.id != jid && a.active && decide (now - u < timeout * 60) then some nid else none
    | _, _ => none)

/-- Candidate-pool pipeline exactly as the claim words it: active and
non-ignored, prioritized restriction, busy removal computed over the OTHER
active judges with empty-fallback, then the under-viewed preference with
empty-fallback.  Written to compare against `preferred_applicants`. -/
def preferred_applicants_claim (ctx : Ctx) (db : DB) (j : Annotator) : List Applicant :=
  let available := db.applicants.filter (fun a => a.active && !(j.ignore.contains a.id))
  let prioritizedApps := available.filter (fun a => a.prioritized)
  let applicants := if prioritizedApps.isEmpty then available else prioritizedApps
  let busy := busyIdsOther db j.id ctx.now ctx.timeout
  let nonbusy := applicants.filter (fun a => !(busy.contains a.id))
  let preferred := if nonbusy.isEmpty then applicants else nonbusy
  let less_seen := preferred.filter (fun a => a.viewed.length < ctx.min_views)
  if less_seen.isEmpty then preferred else less_seen

/-- Modelled from the spec: `crowd_bt.argmax` is not under the judged sources
(only its caller `choose_next` is).  The spec says the selector returns "the
candidate maximizing expectedInformationGain against the reference item,
breaking ties by shuffled order", i.e. the first list element attaining the
maximal score. -/
def argmaxBy {α : Type} (f : α → Rat) : List α → Option α
  | [] => none
  | x :: xs =>
      match argmaxBy f xs with
      | none => some x
      | some y => if f y > f x then some y else some x

/-- The information-gain score `choose_next` computes for a candidate, reading
the judge reliability belief and the reference (prev) item belief. -/
def gainOf (ctx : Ctx) (j : Annotator) (p : Applicant) (a : Applicant) : Rat :=
  ctx.egain j.alpha j.beta p.mu p.sigma_sq a.mu a.sigma_sq

/-- The selection policy `choose_next(annotator)` (judge.py lines 242-258).
The numpy `shuffle` is the injected `ctx.shuffleFn`, the `random()` draw is
`ctx.r`.  The Python lambda dereferences `annotator.prev.mu`; when `prev` is
none (or dangling) that raises, embedded as `Except.error ()`. -/
def choose_next (ctx : Ctx) (db : DB) (j : Annotator) : Except Unit (Option Applicant) :=
  let applicants := ctx.shuffleFn (preferred_applicants ctx db j)
  if applicants.isEmpty then Except.ok none
  else if ctx.r < ctx.eps then Except.ok applicants.head?
  else
    match j.prev.bind (fun pid => findApplicant db pid) with
    | none => Except.error ()
    | some p => Except.ok (argmaxBy (gainOf ctx j p) applicants)

/-- The assignment write `Annotator.update_next(new_next)`
(annotator.py lines 52-57): a non-none assignment clears the prioritized flag
of the assigned applicant and refreshes the judge timestamp; a none assignment
only writes the `next` slot. -/
def update_next (ctx : Ctx) (db : DB) (j : Annotator) (new_next : Option Applicant) :
    DB × Annotator :=
  match new_next with
  | some a =>
      (mapApplicant db a.id (fun x => { x with prioritized := false }),
       { j with next := some a.id, updated := some ctx.now })
  | none => (db, { j with next := none })

/-- The belief write-back `perform_vote(annotator, next_won)`
(judge.py lines 261-281), with `crowd_bt.update` injected as `ctx.upd`.
`prevA` and `nextA` are the rows `annotator.prev` and `annotator.next`. -/
def perform_vote (ctx : Ctx) (db : DB) (j : Annotator) (prevA nextA : Applicant)
    (next_won : Bool) : DB × Annotator :=
  let winner := if next_won then nextA else prevA
  let loser := if next_won then prevA else nextA
  let u := ctx.upd j.alpha j.beta winner.mu winner.sigma_sq loser.mu loser.sigma_sq
  let db := mapApplicant db winner.id (fun x => { x with mu := u.2.2.1, sigma_sq := u.2.2.2.1 })
  let db := mapApplicant db loser.id (fun x => { x with mu := u.2.2.2.2.1, sigma_sq := u.2.2.2.2.2 })
  (db, { j with alpha := u.1, beta := u.2.1 })

/-- The form action of the `/vote` route. -/
inductive VoteAction
  | Previous
  | Current
  | Skip
deriving Repr, DecidableEq

/-- The form action of the `/begin` route. -/
inductive BeginAction
  | Continue
  | Skip
deriving Repr, DecidableEq

/-- The `/vote` transition body (judge.py lines 100-122).  `cp` and `cn` are
the claimed form ids `prev_id` and `next_id`.  The Python guard dereferences
`annotator.prev.id` and `annotator.next.id`; a missing annotator or a missing
prev/next row raises, embedded as `Except.error ()`.  A claimed-id mismatch
falls through to the commit with nothing mutated.  The judge row mutations are
carried in `j` and handed to `choose_next` directly; the annotator list inside
the database still holds the pre-commit row, which is faithful because the
busy scan reads only `active`, `next` and `updated`, none of which has been
mutated at that point. -/
def vote (ctx : Ctx) (db : DB) (jid : Nat) (cp cn : Nat) (action : VoteAction) :
    Except Unit DB :=
  match findAnnotator db jid with
  | none => Except.error ()
  | some j =>
    match j.prev.bind (fun i => findApplicant db i), j.next.bind (fun i => findApplicant db i) with
    | some prevA, some nextA =>
      if prevA.id = cp ∧ nextA.id = cn then
        match action with
        | VoteAction.Skip =>
            let j := { j with ignore := j.ignore ++ [nextA.id] }
            match choose_next ctx db j with
            | Except.error e => Except.error e
            | Except.ok cand =>
                let s := update_next ctx db j cand
                Except.ok (setAnnotator s.1 s.2)
        | a =>
            let next_won := a = VoteAction.Current
            let s :=
              if prevA.active && nextA.active then
                let s := perform_vote ctx db j prevA nextA next_won
                let d : Decision :=
                  if next_won then ⟨jid, nextA.id, prevA.id⟩ else ⟨jid, prevA.id, nextA.id⟩
                ({ s.1 with decisions := s.1.decisions ++ [d] }, s.2)
              else (db, j)
            let db := mapApplicant s.1 nextA.id (fun x => { x with viewed := x.viewed ++ [jid] })
            let j := { s.2 with prev := some nextA.id, ignore := s.2.ignore ++ [nextA.id] }
            match choose_next ctx db j with
            | Except.error e => Except.error e
            | Except.ok cand =>
                let s := update_next ctx db j cand
                Except.ok (setAnnotator s.1 s.2)
      else Except.ok db
    | _, _ => Except.error ()

/-- The `/begin` transition body (judge.py lines 128-143).  `claimed` is the
form id.  The guard dereferences `annotator.next.id`; a missing annotator or
next row raises, embedded as `Except.error ()`.  On a match the next applicant
is appended to `ignore` before the action branch. -/
def begin (ctx : Ctx) (db : DB) (jid : Nat) (claimed : Nat) (action : BeginAction) :
    Except Unit DB :=
  match findAnnotator db jid with
  | none => Except.error ()
  | some j =>
    match j.next.bind (fun i => findApplicant db i) with
    | none => Except.error ()
    | some nextA =>
      if nextA.id = claimed then
        let j := { j with ignore := j.ignore ++ [nextA.id] }
        match action with
        | BeginAction.Continue =>
            let db := mapApplicant db nextA.id (fun x => { x with viewed := x.viewed ++ [jid] })
            let j := { j with prev := some nextA.id }
            match choose_next ctx db j with
            | Except.error e => Except.error e
            | Except.ok cand =>
                let s := update_next ctx db j cand
                Except.ok (setAnnotator s.1 s.2)
        | BeginAction.Skip => Except.ok (setAnnotator db { j with next := none })
      else Except.ok db

/-- The initialisation transition `maybe_init_annotator()`
(judge.py lines 231-239).  The numpy `choice(applicants)` pick is injected as
the index `k`, reduced modulo the pool size.  The route calling this has
already checked the annotator exists, so the missing-annotator branch returns
the database unchanged rather than modelling the raise. -/
def maybe_init_annotator (ctx : Ctx) (k : Nat) (db : DB) (jid : Nat) : DB :=
  match findAnnotator db jid with
  | none => db
  | some j =>
    match j.next with
    | some _ => db
    | none =>
      let applicants := preferred_applicants ctx db j
      if h : applicants.isEmpty then db
      else
        let chosen := applicants.get ⟨k % applicants.length,
          Nat.mod_lt _ (List.length_pos.mpr (fun he => h (by simp [he])))⟩
        let s := update_next ctx db j (some chosen)
        setAnnotator s.1 s.2

/-! Helper lemmas about the row-store primitives. -/

theorem find?_map_pres {α : Type} (g : α → α) (p : α → Bool)
    (h : ∀ x, p (g x) = p x) (l : List α) :
    (l.map g).find? p = (l.find? p).map g := by
  induction l with
  | nil => rfl
  | cons x xs ih =>
    simp only [List.map_cons]
    cases hpx : p x with
    | true =>
      rw [List.find?_cons_of_pos _ (by rw [h x, hpx]), List.find?_cons_of_pos _ hpx]
      rfl
    | false =>
      rw [List.find?_cons_of_neg _ (by simp [h x, hpx]), List.find?_cons_of_neg _ (by simp [hpx])]
      exact ih

theorem findApplicant_setAnnotator (db : DB) (j : Annotator) (i : Nat) :
    findApplicant (setAnnotator db j) i = findApplicant db i := rfl

theorem findAnnotator_mapApplicant (db : DB) (k : Nat) (f : Applicant → Applicant) (i : Nat) :
    findAnnotator (mapApplicant db k f) i = findAnnotator db i := rfl

theorem decisions_setAnnotator (db : DB) (j : Annotator) :
    (setAnnotator db j).decisions = db.decisions := rfl

theorem decisions_mapApplicant (db : DB) (k : Nat) (f : Applicant → Applicant) :
    (mapApplicant db k f).decisions = db.decisions := rfl

theorem findApplicant_mapApplicant (db : DB) (k : Nat) (f : Applicant → Applicant)
    (hf : ∀ x, (f x).id = x.id) (i : Nat) :
    findApplicant (mapApplicant db k f) i
      = Option.map (fun x => if x.id = k then f x else x) (findApplicant db i) := by
  unfold findApplicant mapApplicant
  exact find?_map_pres _ _ (fun x => by by_cases hx : x.id = k <;> simp [hx, hf x]) _

theorem findAnnotator_setAnnotator (db : DB) (j : Annotator) (i : Nat) :
    findAnnotator (setAnnotator db j) i
      = Option.map (fun x => if x.id = j.id then j else x) (findAnnotator db i) := by
  unfold findAnnotator setAnnotator
  exact find?_map_pres _ _ (fun x => by by_cases hx : x.id = j.id <;> simp [hx]) _

theorem findApplicant_id {db : DB} {i : Nat} {a : Applicant}
    (h : findApplicant db i = some a) : a.id = i := by
  have := List.find?_some h
  simpa using this

theorem findAnnotator_id {db : DB} {i : Nat} {j : Annotator}
    (h : findAnnotator db i = some j) : j.id = i := by
  have := List.find?_some h
  simpa using this

/-- Every member of the candidate pool comes from the initial active,
non-ignored filter: every later stage of the pipeline only filters it or falls
back to an earlier stage. -/
theorem preferred_subset_available (ctx : Ctx) (db : DB) (j : Annotator) :
    ∀ x ∈ preferred_applicants ctx db j,
      x ∈ db.applicants.filter (fun a => a.active && !(j.ignore.contains a.id)) := by
  intro x hx
  simp only [preferred_applicants] at hx
  split at hx
  all_goals split at hx
  all_goals try split at hx
  all_goals
    repeat (first | exact hx | replace hx := List.mem_of_mem_filter hx)

/-- Members of the candidate pool are active and not ignored by the judge. -/
theorem mem_preferred {ctx : Ctx} {db : DB} {j : Annotator} {a : Applicant}
    (ha : a ∈ preferred_applicants ctx db j) :
    a.active = true ∧ j.ignore.contains a.id = false := by
  have h := preferred_subset_available ctx db j a ha
  rw [List.mem_filter] at h
  have h2 := h.2
  simp only [Bool.and_eq_true, Bool.not_eq_true'] at h2
  exact h2

/-- Full characterisation of `argmaxBy` on a non-empty list: it returns the
first element attaining the maximal score, so every element scores at most the
result and every element strictly before the result scores strictly less. -/
theorem argmaxBy_spec {α : Type} (f : α → Rat) :
    ∀ xs : List α, xs ≠ [] →
      ∃ c pre post, argmaxBy f xs = some c ∧ xs = pre ++ c :: post
        ∧ (∀ y ∈ xs, f y ≤ f c) ∧ (∀ y ∈ pre, f y < f c) := by
  intro xs
  induction xs with
  | nil => exact fun h => absurd rfl h
  | cons x t ih =>
    intro _
    cases t with
    | nil =>
      refine ⟨x, [], [], rfl, rfl, ?_, ?_⟩
      · intro y hy
        rw [List.mem_singleton] at hy
        exact hy ▸ le_rfl
      · intro y hy
        exact absurd hy (List.not_mem_nil y)
    | cons z zs =>
      obtain ⟨c, pre, post, hc, heq, hle, hlt⟩ := ih (by simp)
      have hstep : argmaxBy f (x :: z :: zs)
          = if f c > f x then some c else some x := by
        conv_lhs => rw [argmaxBy]
        rw [hc]
      by_cases hfc : f c > f x
      · refine ⟨c, x :: pre, post, by rw [hstep, if_pos hfc], by rw [heq]; rfl, ?_, ?_⟩
        · intro y hy
          rcases List.mem_cons.mp hy with rfl | hy
          · exact le_of_lt hfc
          · exact hle y hy
        · intro y hy
          rcases List.mem_cons.mp hy with rfl | hy
          · exact hfc
          · exact hlt y hy
      · refine ⟨x, [], z :: zs, by rw [hstep, if_neg hfc], rfl, ?_, ?_⟩
        · intro y hy
          rcases List.mem_cons.mp hy with rfl | hy
          · exact le_rfl
          · exact le_trans (hle y hy) (not_lt.mp hfc)
        · intro y hy
          exact absurd hy (List.not_mem_nil y)

/-- When the reference (prev) row is present, `choose_next` cannot raise. -/
theorem choose_next_isOk (ctx : Ctx) (db : DB) (j : Annotator) (p : Applicant)
    (hp : j.prev.bind (fun i => findApplicant db i) = some p) :
    ∃ cand, choose_next ctx db j = Except.ok cand := by
  unfold choose_next
  dsimp only
  split
  · exact ⟨none, rfl⟩
  · split
    · exact ⟨_, rfl⟩
    · rw [hp]
      exact ⟨_, rfl⟩

/-! Concrete fixtures used by the witnesses and counterexamples. -/

/-- A concrete stand-in for `crowd_bt.update`: the identity on every belief. -/
def wUpd : UpdateFn := fun a b c d e f => (a, b, c, d, e, f)

/-- A concrete stand-in for `crowd_bt.expected_information_gain`: the score of
a candidate is its mean. -/
def wGain : GainFn := fun _ _ _ _ c _ => c

/-- A context whose uniform draw falls below the exploration rate. -/
def wCtx : Ctx := ⟨wUpd, wGain, id, 0, 1, 0, 5, 2⟩

/-- A context whose uniform draw falls on or above the exploration rate. -/
def wCtx2 : Ctx := ⟨wUpd, wGain, id, 1, 0, 0, 5, 2⟩

def wA1 : Applicant := ⟨1, true, false, [], 0, 1⟩

def wA2 : Applicant := ⟨2, true, false, [], 3, 1⟩

def wA3 : Applicant := ⟨3, true, false, [], 1, 1⟩

/-- A judge in STEADY state: `prev` is applicant 1, `next` applicant 2,
applicant 1 already ignored. -/
def wJ : Annotator := ⟨10, true, 10, 1, some 1, some 2, some 0, [1]⟩

def wDB : DB := ⟨[wA1, wA2, wA3], [wJ], []⟩

/-- C1: a STEADY vote submission whose claimed `(prev_id, next_id)` pair does
not both equal the judge's live `(prev, next)` is a complete no-op: the
transition commits the database unchanged, so no Decision row, no belief value
and none of the prev/next/ignore/viewed relations change. -/
theorem vote_stale_noop (ctx : Ctx) (db : DB) (jid cp cn : Nat) (action : VoteAction)
    (j : Annotator) (prevA nextA : Applicant)
    (hj : findAnnotator db jid = some j)
    (hprev : j.prev.bind (fun i => findApplicant db i) = some prevA)
    (hnext : j.next.bind (fun i => findApplicant db i) = some nextA)
    (hmm : ¬(prevA.id = cp ∧ nextA.id = cn)) :
    vote ctx db jid cp cn action = Except.ok db := by
  unfold vote
  rw [hj]
  dsimp only
  rw [hprev, hnext]
  dsimp only
  rw [if_neg hmm]

theorem vote_stale_noop_witness :
    (¬(wA1.id = 1 ∧ wA2.id = 3)) ∧ vote wCtx wDB 10 1 3 VoteAction.Current = Except.ok wDB :=
  ⟨by decide,
   vote_stale_noop wCtx wDB 10 1 3 VoteAction.Current wJ wA1 wA2
     (by decide) (by decide) (by decide) (by decide)⟩

/-- C9: `Annotator.update_next` with a non-none applicant clears that
applicant's prioritized flag and refreshes the judge's `updated` timestamp to
the current time, and records the assignment; with none it only clears the
`next` slot, touching neither any prioritized flag nor the timestamp. -/
theorem update_next_effects (ctx : Ctx) (db : DB) (j : Annotator) (a : Applicant) :
    ((update_next ctx db j (some a)).2.next = some a.id
      ∧ (update_next ctx db j (some a)).2.updated = some ctx.now
      ∧ ∀ x ∈ (update_next ctx db j (some a)).1.applicants,
          x.id = a.id → x.prioritized = false)
    ∧ ((update_next ctx db j none).1 = db
      ∧ (update_next ctx db j none).2.next = none
      ∧ (update_next ctx db j none).2.updated = j.updated) := by
  refine ⟨⟨rfl, rfl, ?_⟩, rfl, rfl, rfl⟩
  intro x hx hid
  simp only [update_next, mapApplicant, List.mem_map] at hx
  obtain ⟨y, _, rfl⟩ := hx
  by_cases hy : y.id = a.id
  · rw [if_pos hy]
  · rw [if_neg hy] at hid ⊢
    exact absurd hid hy

theorem update_next_effects_witness :
    ((update_next wCtx wDB wJ (some wA1)).2.next = some wA1.id
      ∧ (update_next wCtx wDB wJ (some wA1)).2.updated = some wCtx.now
      ∧ ∀ x ∈ (update_next wCtx wDB wJ (some wA1)).1.applicants,
          x.id = wA1.id → x.prioritized = false)
    ∧ ((update_next wCtx wDB wJ none).1 = wDB
      ∧ (update_next wCtx wDB wJ none).2.next = none
      ∧ (update_next wCtx wDB wJ none).2.updated = wJ.updated) :=
  update_next_effects wCtx wDB wJ wA1

/-- C10: every member of the candidate pool returned by
`preferred_applicants` is active and outside the judge's ignore set, whichever
of the prioritized, busy-removal or under-viewed fallbacks fire. -/
theorem preferred_pool_invariant (ctx : Ctx) (db : DB) (j : Annotator) (a : Applicant)
    (ha : a ∈ preferred_applicants ctx db j) :
    a.active = true ∧ j.ignore.contains a.id = false :=
  mem_preferred ha

theorem preferred_pool_invariant_witness :
    (wA3 ∈ preferred_applicants wCtx wDB wJ)
    ∧ (wA3.active = true ∧ wJ.ignore.contains wA3.id = false) :=
  ⟨by decide, preferred_pool_invariant wCtx wDB wJ wA3 (by decide)⟩

/-- C4: with a reference item present, `choose_next` returns none on an empty
pool; otherwise, on a draw below the exploration rate it returns the first
shuffled candidate, and on a draw at or above the rate it returns the
candidate maximizing the information gain against the reference, ties broken
by shuffled order (the first maximal element of the shuffled list). -/
theorem choose_next_policy (ctx : Ctx) (db : DB) (j : Annotator) (p : Applicant)
    (hp : j.prev.bind (fun i => findApplicant db i) = some p)
    (hperm : (ctx.shuffleFn (preferred_applicants ctx db j)).Perm (preferred_applicants ctx db j)) :
    (preferred_applicants ctx db j = [] → choose_next ctx db j = Except.ok none)
    ∧ (preferred_applicants ctx db j ≠ [] → ctx.r < ctx.eps →
        choose_next ctx db j
          = Except.ok (ctx.shuffleFn (preferred_applicants ctx db j)).head?)
    ∧ (preferred_applicants ctx db j ≠ [] → ¬ ctx.r < ctx.eps →
        ∃ c pre post,
          ctx.shuffleFn (preferred_applicants ctx db j) = pre ++ c :: post
          ∧ choose_next ctx db j = Except.ok (some c)
          ∧ (∀ y ∈ ctx.shuffleFn (preferred_applicants ctx db j),
              gainOf ctx j p y ≤ gainOf ctx j p c)
          ∧ (∀ y ∈ pre, gainOf ctx j p y < gainOf ctx j p c)) := by
  refine ⟨?_, ?_, ?_⟩
  · intro hpool
    have hs : ctx.shuffleFn (preferred_applicants ctx db j) = [] := by
      nth_rewrite 2 [hpool] at hperm
      exact hperm.eq_nil
    unfold choose_next
    dsimp only
    rw [if_pos (by rw [hs]; rfl)]
  · intro hpool hr
    have hs : ¬ (ctx.shuffleFn (preferred_applicants ctx db j)).isEmpty = true := by
      rw [List.isEmpty_iff]
      intro he
      rw [he] at hperm
      exact hpool hperm.symm.eq_nil
    unfold choose_next
    dsimp only
    rw [if_neg hs, if_pos hr]
  · intro hpool hr
    have hsne : ctx.shuffleFn (preferred_applicants ctx db j) ≠ [] := by
      intro he
      rw [he] at hperm
      exact hpool hperm.symm.eq_nil
    obtain ⟨c, pre, post, hc, heq, hle, hlt⟩ := argmaxBy_spec (gainOf ctx j p) _ hsne
    refine ⟨c, pre, post, heq, ?_, hle, hlt⟩
    unfold choose_next
    dsimp only
    rw [if_neg (by rw [List.isEmpty_iff]; exact hsne), if_neg hr, hp]
    dsimp only
    rw [hc]

theorem choose_next_policy_witness :
    (wJ.prev.bind (fun i => findApplicant wDB i) = some wA1)
    ∧ ((preferred_applicants wCtx2 wDB wJ = [] → choose_next wCtx2 wDB wJ = Except.ok none)
      ∧ (preferred_applicants wCtx2 wDB wJ ≠ [] → wCtx2.r < wCtx2.eps →
          choose_next wCtx2 wDB wJ
            = Except.ok (wCtx2.shuffleFn (preferred_applicants wCtx2 wDB wJ)).head?)
      ∧ (preferred_applicants wCtx2 wDB wJ ≠ [] → ¬ wCtx2.r < wCtx2.eps →
          ∃ c pre post,
            wCtx2.shuffleFn (preferred_applicants wCtx2 wDB wJ) = pre ++ c :: post
            ∧ choose_next wCtx2 wDB wJ = Except.ok (some c)
            ∧ (∀ y ∈ wCtx2.shuffleFn (preferred_applicants wCtx2 wDB wJ),
                gainOf wCtx2 wJ wA1 y ≤ gainOf wCtx2 wJ wA1 c)
            ∧ (∀ y ∈ pre, gainOf wCtx2 wJ wA1 y < gainOf wCtx2 wJ wA1 c))) :=
  ⟨by decide, choose_next_policy wCtx2 wDB wJ wA1 (by decide) (List.Perm.refl _)⟩

/-- A judge with no reference item: `prev` is none. -/
def wJ5 : Annotator := ⟨11, true, 10, 1, none, none, none, []⟩

def wDB5 : DB := ⟨[wA1, wA2, wA3], [wJ5], []⟩

/-- C5 counterexample: with no reference item and a non-empty candidate list,
`choose_next` does have a failure path: on a draw at or above the exploration
rate it reaches the gain lambda, which dereferences the missing `prev`. -/
theorem choose_next_no_ref_cx :
    wJ5.prev = none
    ∧ preferred_applicants wCtx2 wDB5 wJ5 ≠ []
    ∧ choose_next wCtx2 wDB5 wJ5 = Except.error () := by
  exact ⟨rfl, by decide, rfl⟩

/-- C5 amended: with no reference item and a non-empty candidate list,
`choose_next` returns the first shuffled candidate only when the uniform draw
is below the exploration rate; on a draw at or above the rate it errors
(attribute access on the missing reference row).  In the running program this
error path is unreachable: the no-reference pick is made by
`maybe_init_annotator` via a uniform `choice`, never by `choose_next`. -/
theorem choose_next_no_ref (ctx : Ctx) (db : DB) (j : Annotator)
    (hprev : j.prev = none)
    (hpool : preferred_applicants ctx db j ≠ [])
    (hperm : (ctx.shuffleFn (preferred_applicants ctx db j)).Perm (preferred_applicants ctx db j)) :
    (ctx.r < ctx.eps →
       choose_next ctx db j
         = Except.ok (ctx.shuffleFn (preferred_applicants ctx db j)).head?)
    ∧ (¬ ctx.r < ctx.eps → choose_next ctx db j = Except.error ()) := by
  have hs : ¬ (ctx.shuffleFn (preferred_applicants ctx db j)).isEmpty = true := by
    rw [List.isEmpty_iff]
    intro he
    rw [he] at hperm
    exact hpool hperm.symm.eq_nil
  constructor
  · intro hr
    unfold choose_next
    dsimp only
    rw [if_neg hs, if_pos hr]
  · intro hr
    unfold choose_next
    dsimp only
    rw [if_neg hs, if_neg hr, hprev]
    rfl

theorem choose_next_no_ref_witness :
    (wJ5.prev = none ∧ preferred_applicants wCtx wDB5 wJ5 ≠ [])
    ∧ ((wCtx.r < wCtx.eps →
         choose_next wCtx wDB5 wJ5
           = Except.ok (wCtx.shuffleFn (preferred_applicants wCtx wDB5 wJ5)).head?)
      ∧ (¬ wCtx.r < wCtx.eps → choose_next wCtx wDB5 wJ5 = Except.error ())) :=
  ⟨⟨rfl, by decide⟩, choose_next_no_ref wCtx wDB5 wJ5 rfl (by decide) (List.Perm.refl _)⟩

/-- C2 counterexample: the code's busy scan ranges over every active judge,
the judge itself included, while the claim says "some other active judge".
With a judge whose own live assignment is fresh and not in its ignore set, the
code pool and the claimed pool differ. -/
theorem preferred_other_judges_cx :
    preferred_applicants wCtx wDB wJ ≠ preferred_applicants_claim wCtx wDB wJ := by
  decide

/-- An applicant id is busy per the code scan exactly when it is busy per the
other-judges scan, provided the judge's own live `next` (if any) is in its
ignore set and the id in question is not ignored. -/
theorem busy_eq_on_not_ignored (db : DB) (j : Annotator) (now timeout : Int) (i : Nat)
    (hrow : ∀ a ∈ db.annotators, a.id = j.id → a.next = j.next)
    (hreach : ∀ nid, j.next = some nid → j.ignore.contains nid = true)
    (hig : j.ignore.contains i = false) :
    (busyIds db now timeout).contains i = (busyIdsOther db j.id now timeout).contains i := by
  have hiff : i ∈ busyIds db now timeout ↔ i ∈ busyIdsOther db j.id now timeout := by
    unfold busyIds busyIdsOther
    rw [List.mem_filterMap, List.mem_filterMap]
    constructor
    · rintro ⟨a, ha, hfa⟩
      refine ⟨a, ha, ?_⟩
      cases han : a.next with
      | none => rw [han] at hfa; simp at hfa
      | some nid =>
        cases hau : a.updated with
        | none => rw [han, hau] at hfa; simp at hfa
        | some u =>
          rw [han, hau] at hfa
          dsimp only at hfa ⊢
          by_cases hcond : (a.active && decide (now - u < timeout * 60)) = true
          · rw [if_pos hcond] at hfa
            have hnid : nid = i := by injection hfa
            have hane : a.id ≠ j.id := by
              intro he
              have hn := hrow a ha he
              rw [han] at hn
              have hcontains := hreach nid hn.symm
              rw [hnid, hig] at hcontains
              exact Bool.false_ne_true hcontains
            have hc' := hcond
            rw [Bool.and_eq_true] at hc'
            have hcond2 : (a.id != j.id && a.active && decide (now - u < timeout * 60)) = true := by
              rw [Bool.and_eq_true, Bool.and_eq_true]
              exact ⟨⟨bne_iff_ne.mpr hane, hc'.1⟩, hc'.2⟩
            rw [if_pos hcond2]
            exact hfa
          · rw [if_neg hcond] at hfa
            simp at hfa
    · rintro ⟨a, ha, hfa⟩
      refine ⟨a, ha, ?_⟩
      cases han : a.next with
      | none => rw [han] at hfa; simp at hfa
      | some nid =>
        cases hau : a.updated with
        | none => rw [han, hau] at hfa; simp at hfa
        | some u =>
          rw [han, hau] at hfa
          dsimp only at hfa ⊢
          by_cases hcond : (a.id != j.id && a.active && decide (now - u < timeout * 60)) = true
          · rw [if_pos hcond] at hfa
            have hc' := hcond
            rw [Bool.and_eq_true, Bool.and_eq_true] at hc'
            have hcond2 : (a.active && decide (now - u < timeout * 60)) = true := by
              rw [Bool.and_eq_true]
              exact ⟨hc'.1.2, hc'.2⟩
            rw [if_pos hcond2]
            exact hfa
          · rw [if_neg hcond] at hfa
            simp at hfa
  have hbool : ∀ b c : Bool, (b = true ↔ c = true) → b = c := by
    intro b c h
    cases b <;> cases c <;> simp_all
  exact hbool _ _ ((List.elem_iff).trans (hiff.trans (List.elem_iff).symm))

/-- C2 amended: for every judge J the pool is computed by the claimed
sequential pipeline, except that the busy scan ranges over every active judge
with a fresh assignment, J itself included.  Whenever J's own live `next` is
none or already in J's ignore set — which holds at every call site of
`preferred_applicants` — the code pool coincides with the other-judges
pipeline of the claim. -/
theorem preferred_eq_claim (ctx : Ctx) (db : DB) (j : Annotator)
    (hrow : ∀ a ∈ db.annotators, a.id = j.id → a.next = j.next)
    (hreach : ∀ nid, j.next = some nid → j.ignore.contains nid = true) :
    preferred_applicants ctx db j = preferred_applicants_claim ctx db j := by
  have hsub : ∀ x ∈ (if (List.filter (fun a => a.prioritized)
        (List.filter (fun a => a.active && !(j.ignore.contains a.id)) db.applicants)).isEmpty = true
      then List.filter (fun a => a.active && !(j.ignore.contains a.id)) db.applicants
      else List.filter (fun a => a.prioritized)
        (List.filter (fun a => a.active && !(j.ignore.contains a.id)) db.applicants)),
      x ∈ List.filter (fun a => a.active && !(j.ignore.contains a.id)) db.applicants := by
    intro x hx
    split at hx
    · exact hx
    · exact List.mem_of_mem_filter hx
  have hfilter : List.filter (fun a => !(busyIds db ctx.now ctx.timeout).contains a.id)
      (if (List.filter (fun a => a.prioritized)
        (List.filter (fun a => a.active && !(j.ignore.contains a.id)) db.applicants)).isEmpty = true
      then List.filter (fun a => a.active && !(j.ignore.contains a.id)) db.applicants
      else List.filter (fun a => a.prioritized)
        (List.filter (fun a => a.active && !(j.ignore.contains a.id)) db.applicants))
      = List.filter (fun a => !(busyIdsOther db j.id ctx.now ctx.timeout).contains a.id)
      (if (List.filter (fun a => a.prioritized)
        (List.filter (fun a => a.active && !(j.ignore.contains a.id)) db.applicants)).isEmpty = true
      then List.filter (fun a => a.active && !(j.ignore.contains a.id)) db.applicants
      else List.filter (fun a => a.prioritized)
        (List.filter (fun a => a.active && !(j.ignore.contains a.id)) db.applicants)) := by
    refine List.filter_congr ?_
    intro x hx
    have hxig : j.ignore.contains x.id = false := by
      have h2 := (List.mem_filter.mp (hsub x hx)).2
      simp only [Bool.and_eq_true, Bool.not_eq_true'] at h2
      exact h2.2
    rw [busy_eq_on_not_ignored db j ctx.now ctx.timeout x.id hrow hreach hxig]
  simp only [preferred_applicants, preferred_applicants_claim]
  rw [hfilter]

theorem preferred_eq_claim_witness :
    ((∀ a ∈ wDB5.annotators, a.id = wJ5.id → a.next = wJ5.next)
      ∧ (∀ nid, wJ5.next = some nid → wJ5.ignore.contains nid = true))
    ∧ preferred_applicants wCtx wDB5 wJ5 = preferred_applicants_claim wCtx wDB5 wJ5 :=
  ⟨⟨by decide, by decide⟩, preferred_eq_claim wCtx wDB5 wJ5 (by decide) (by decide)⟩

/-- After the initialisation write, looking the judge up returns exactly the
updated judge row. -/
theorem findAnnotator_after_update {ctx : Ctx} {db : DB} {j : Annotator} {jid : Nat}
    {c : Applicant} (hj : findAnnotator db jid = some j) :
    findAnnotator
        (setAnnotator ((update_next ctx db j (some c)).1) ((update_next ctx db j (some c)).2)) jid
      = some ((update_next ctx db j (some c)).2) := by
  have h1 : findAnnotator ((update_next ctx db j (some c)).1) jid = some j := hj
  rw [findAnnotator_setAnnotator, h1]
  simp only [Option.map_some']
  rw [if_pos (show j.id = (update_next ctx db j (some c)).2.id from rfl)]

/-- C7: `maybe_init_annotator` is idempotent.  A judge with a live `next` is
left untouched; a judge with no `next` and a non-empty candidate pool gets
some pool member assigned; and running the transition twice (same clock and
configuration, any random pick) equals running it once. -/
theorem maybe_init_spec (ctx : Ctx) (k k2 : Nat) (db : DB) (jid : Nat) :
    (∀ j, findAnnotator db jid = some j →
       ((j.next ≠ none → maybe_init_annotator ctx k db jid = db)
        ∧ (j.next = none → preferred_applicants ctx db j ≠ [] →
            ∃ c, c ∈ preferred_applicants ctx db j
              ∧ ∃ jf, findAnnotator (maybe_init_annotator ctx k db jid) jid = some jf
                  ∧ jf.next = some c.id)))
    ∧ maybe_init_annotator ctx k2 (maybe_init_annotator ctx k db jid) jid
        = maybe_init_annotator ctx k db jid := by
  constructor
  · intro j hj
    constructor
    · intro hne
      unfold maybe_init_annotator
      rw [hj]
      dsimp only
      cases hn : j.next with
      | some x => rfl
      | none => exact absurd hn hne
    · intro hnone hpool
      have hem : ¬ (preferred_applicants ctx db j).isEmpty = true := by
        rw [List.isEmpty_iff]
        exact hpool
      unfold maybe_init_annotator
      rw [hj]
      dsimp only
      rw [hnone]
      dsimp only
      rw [dif_neg hem]
      exact ⟨_, List.get_mem _ _ _, _, findAnnotator_after_update hj, rfl⟩
  · cases hfind : findAnnotator db jid with
    | none =>
      have h1 : maybe_init_annotator ctx k db jid = db := by
        unfold maybe_init_annotator
        rw [hfind]
      rw [h1]
      unfold maybe_init_annotator
      rw [hfind]
    | some j =>
      cases hn : j.next with
      | some x =>
        have h1 : maybe_init_annotator ctx k db jid = db := by
          unfold maybe_init_annotator
          rw [hfind]
          dsimp only
          rw [hn]
        rw [h1]
        unfold maybe_init_annotator
        rw [hfind]
        dsimp only
        rw [hn]
      | none =>
        by_cases hem : (preferred_applicants ctx db j).isEmpty = true
        · have h1 : maybe_init_annotator ctx k db jid = db := by
            unfold maybe_init_annotator
            rw [hfind]
            dsimp only
            rw [hn]
            dsimp only
            rw [dif_pos hem]
          rw [h1]
          unfold maybe_init_annotator
          rw [hfind]
          dsimp only
          rw [hn]
          dsimp only
          rw [dif_pos hem]
        · have h1 : ∃ c, maybe_init_annotator ctx k db jid
              = setAnnotator ((update_next ctx db j (some c)).1) ((update_next ctx db j (some c)).2) := by
            unfold maybe_init_annotator
            rw [hfind]
            dsimp only
            rw [hn]
            dsimp only
            rw [dif_neg hem]
            exact ⟨_, rfl⟩
          obtain ⟨c, h1⟩ := h1
          rw [h1]
          unfold maybe_init_annotator
          rw [findAnnotator_after_update hfind]
          dsimp only [update_next]

theorem maybe_init_spec_witness :
    (findAnnotator wDB5 11 = some wJ5
      ∧ wJ5.next = none
      ∧ preferred_applicants wCtx wDB5 wJ5 ≠ []
      ∧ ∃ c, c ∈ preferred_applicants wCtx wDB5 wJ5
          ∧ ∃ jf, findAnnotator (maybe_init_annotator wCtx 0 wDB5 11) 11 = some jf
              ∧ jf.next = some c.id)
    ∧ maybe_init_annotator wCtx 1 (maybe_init_annotator wCtx 0 wDB5 11) 11
        = maybe_init_annotator wCtx 0 wDB5 11 :=
  ⟨⟨by decide, rfl, by decide,
    ((maybe_init_spec wCtx 0 1 wDB5 11).1 wJ5 (by decide)).2 rfl (by decide)⟩,
   (maybe_init_spec wCtx 0 1 wDB5 11).2⟩

/-- A successful relationship dereference pins the row: the row found under
the stored id is the row itself, found under its own id. -/
theorem find_of_bind {db : DB} {o : Option Nat} {X : Applicant}
    (h : o.bind (fun i => findApplicant db i) = some X) :
    findApplicant db X.id = some X := by
  cases ho : o with
  | none => rw [ho] at h; simp at h
  | some nid =>
    rw [ho] at h
    dsimp only [Option.bind] at h
    rw [findApplicant_id h]
    exact h

/-- C6: in BEGIN state with a matching claimed id, `Continue` marks the next
applicant X as viewed by the judge, sets `prev = X`, appends X to the ignore
set and assigns the next pick of `choose_next` run against the ignore-extended
judge with reference X; `Skip` appends X to ignore and clears `next`. -/
theorem begin_actions (ctx : Ctx) (db : DB) (jid : Nat)
    (j : Annotator) (X : Applicant) (db1 : DB) (j1 : Annotator) (cand : Option Applicant)
    (hj : findAnnotator db jid = some j)
    (_hprev0 : j.prev = none)
    (hnext : j.next.bind (fun i => findApplicant db i) = some X)
    (hdb1 : db1 = mapApplicant db X.id (fun x => { x with viewed := x.viewed ++ [jid] }))
    (hj1 : j1 = { j with prev := some X.id, ignore := j.ignore ++ [X.id] })
    (hcand : choose_next ctx db1 j1 = Except.ok cand) :
    (begin ctx db jid X.id BeginAction.Continue
        = Except.ok (setAnnotator ((update_next ctx db1 j1 cand).1) ((update_next ctx db1 j1 cand).2))
      ∧ (∃ Xf, findApplicant
            (setAnnotator ((update_next ctx db1 j1 cand).1) ((update_next ctx db1 j1 cand).2)) X.id
            = some Xf ∧ Xf.viewed = X.viewed ++ [jid])
      ∧ (update_next ctx db1 j1 cand).2.prev = some X.id
      ∧ X.id ∈ (update_next ctx db1 j1 cand).2.ignore
      ∧ (update_next ctx db1 j1 cand).2.next = Option.map Applicant.id cand)
    ∧ begin ctx db jid X.id BeginAction.Skip
        = Except.ok (setAnnotator db { j with ignore := j.ignore ++ [X.id], next := none }) := by
  have hfindX : findApplicant db X.id = some X := find_of_bind hnext
  subst hdb1
  subst hj1
  refine ⟨⟨?_, ?_, ?_, ?_, ?_⟩, ?_⟩
  · unfold begin
    rw [hj]
    dsimp only
    rw [hnext]
    dsimp only
    rw [if_pos rfl]
    try dsimp only
    rw [hcand]
  · cases cand with
    | none =>
      rw [findApplicant_setAnnotator]
      try dsimp only [update_next]
      rw [findApplicant_mapApplicant db X.id
            (fun x => { x with viewed := x.viewed ++ [jid] }) (fun x => rfl) X.id, hfindX]
      simp only [Option.map_some', eq_self_iff_true, if_true]
      exact ⟨_, rfl, rfl⟩
    | some c =>
      rw [findApplicant_setAnnotator]
      try dsimp only [update_next]
      rw [findApplicant_mapApplicant _ c.id
            (fun x => { x with prioritized := false }) (fun x => rfl) X.id,
          findApplicant_mapApplicant db X.id
            (fun x => { x with viewed := x.viewed ++ [jid] }) (fun x => rfl) X.id, hfindX]
      simp only [Option.map_some', eq_self_iff_true, if_true]
      try dsimp only
      by_cases hcx : X.id = c.id
      · rw [if_pos hcx]
        exact ⟨_, rfl, rfl⟩
      · rw [if_neg hcx]
        exact ⟨_, rfl, rfl⟩
  · cases cand with
    | none => rfl
    | some c => rfl
  · cases cand with
    | none => exact List.mem_append_right _ (List.mem_singleton_self _)
    | some c => exact List.mem_append_right _ (List.mem_singleton_self _)
  · cases cand with
    | none => rfl
    | some c => rfl
  · unfold begin
    rw [hj]
    dsimp only
    rw [hnext]
    dsimp only
    rw [if_pos rfl]

/-- Rewriting an applicant row in place preserves any projection the rewrite
does not touch, at every lookup key. -/
theorem findApplicant_proj_pres {β : Type} (proj : Applicant → β) (db : DB) (k : Nat)
    (f : Applicant → Applicant) (hf : ∀ x, (f x).id = x.id)
    (hp : ∀ x, proj (f x) = proj x) (i : Nat) :
    Option.map proj (findApplicant (mapApplicant db k f) i)
      = Option.map proj (findApplicant db i) := by
  rw [findApplicant_mapApplicant db k f hf i]
  cases findApplicant db i with
  | none => rfl
  | some a =>
    simp only [Option.map_some']
    by_cases ha : a.id = k
    · rw [if_pos ha, hp]
    · rw [if_neg ha]

/-- Committing a judge row whose projection agrees with the row it replaces
preserves that projection at every lookup key. -/
theorem findAnnotator_proj_setAnnotator {β : Type} {db : DB} {j2 : Annotator}
    (proj : Annotator → β) (j : Annotator) (jid : Nat)
    (hj : findAnnotator db jid = some j) (hid : j2.id = jid) (hproj : proj j2 = proj j)
    (i : Nat) :
    Option.map proj (findAnnotator (setAnnotator db j2) i)
      = Option.map proj (findAnnotator db i) := by
  rw [findAnnotator_setAnnotator]
  cases hfi : findAnnotator db i with
  | none => rfl
  | some a =>
    simp only [Option.map_some']
    by_cases ha : a.id = j2.id
    · have hai : a.id = i := findAnnotator_id hfi
      have hij : i = jid := by rw [← hai, ha, hid]
      rw [hij, hj] at hfi
      have he : j = a := by injection hfi
      rw [if_pos ha, hproj, he]
    · rw [if_neg ha]

/-- A judge in BEGIN state: `next` assigned, `prev` and `ignore` empty. -/
def wJ6 : Annotator := ⟨12, true, 10, 1, none, some 1, some 0, []⟩

def wDB6 : DB := ⟨[wA1, wA2, wA3], [wJ6], []⟩

/-- The database after marking applicant 1 as viewed by judge 12. -/
def wdb6 : DB := mapApplicant wDB6 wA1.id (fun x => { x with viewed := x.viewed ++ [12] })

/-- Judge 12 after the Continue mutation of its `prev` and `ignore`. -/
def wj6 : Annotator := { wJ6 with prev := some wA1.id, ignore := wJ6.ignore ++ [wA1.id] }

theorem begin_actions_witness :
    begin wCtx wDB6 12 wA1.id BeginAction.Continue
      = Except.ok (setAnnotator ((update_next wCtx wdb6 wj6 (some wA2)).1)
          ((update_next wCtx wdb6 wj6 (some wA2)).2))
    ∧ begin wCtx wDB6 12 wA1.id BeginAction.Skip
      = Except.ok (setAnnotator wDB6 { wJ6 with ignore := wJ6.ignore ++ [wA1.id], next := none }) :=
  ⟨(begin_actions wCtx wDB6 12 wJ6 wA1 wdb6 wj6 (some wA2)
      (by decide) rfl (by decide) rfl rfl rfl).1.1,
   (begin_actions wCtx wDB6 12 wJ6 wA1 wdb6 wj6 (some wA2)
      (by decide) rfl (by decide) rfl rfl rfl).2⟩

/-- C3: a STEADY `Previous` or `Current` vote with matching claimed ids where
`prev` or `next` is no longer active records no Decision and changes no belief
value (item means and variances, judge alpha and beta all keep their lookup
values), yet still marks the next applicant Y as viewed by the judge, sets
`prev = Y`, appends Y to the ignore set, and assigns the pick of `choose_next`
run against the mutated judge whose reference (`prev`) is Y. -/
theorem vote_inactive_advance (ctx : Ctx) (db : DB) (jid cp cn : Nat) (action : VoteAction)
    (j : Annotator) (X Y : Applicant) (db1 : DB) (j1 : Annotator) (cand : Option Applicant)
    (hj : findAnnotator db jid = some j)
    (hprev : j.prev.bind (fun i => findApplicant db i) = some X)
    (hnext : j.next.bind (fun i => findApplicant db i) = some Y)
    (hmatch : X.id = cp ∧ Y.id = cn)
    (hact : action = VoteAction.Previous ∨ action = VoteAction.Current)
    (hinact : (X.active && Y.active) = false)
    (hdb1 : db1 = mapApplicant db Y.id (fun x => { x with viewed := x.viewed ++ [jid] }))
    (hj1 : j1 = { j with prev := some Y.id, ignore := j.ignore ++ [Y.id] })
    (hcand : choose_next ctx db1 j1 = Except.ok cand) :
    vote ctx db jid cp cn action
      = Except.ok (setAnnotator ((update_next ctx db1 j1 cand).1) ((update_next ctx db1 j1 cand).2))
    ∧ (setAnnotator ((update_next ctx db1 j1 cand).1) ((update_next ctx db1 j1 cand).2)).decisions
        = db.decisions
    ∧ (∀ i, Option.map (fun x => (x.mu, x.sigma_sq))
          (findApplicant
            (setAnnotator ((update_next ctx db1 j1 cand).1) ((update_next ctx db1 j1 cand).2)) i)
        = Option.map (fun x => (x.mu, x.sigma_sq)) (findApplicant db i))
    ∧ (∀ i, Option.map (fun x => (x.alpha, x.beta))
          (findAnnotator
            (setAnnotator ((update_next ctx db1 j1 cand).1) ((update_next ctx db1 j1 cand).2)) i)
        = Option.map (fun x => (x.alpha, x.beta)) (findAnnotator db i))
    ∧ (∃ Yf, findApplicant
          (setAnnotator ((update_next ctx db1 j1 cand).1) ((update_next ctx db1 j1 cand).2)) Y.id
          = some Yf ∧ Yf.viewed = Y.viewed ++ [jid] ∧ Yf.mu = Y.mu ∧ Yf.sigma_sq = Y.sigma_sq)
    ∧ (update_next ctx db1 j1 cand).2.prev = some Y.id
    ∧ Y.id ∈ (update_next ctx db1 j1 cand).2.ignore
    ∧ (update_next ctx db1 j1 cand).2.next = Option.map Applicant.id cand := by
  have hfindY : findApplicant db Y.id = some Y := find_of_bind hnext
  have hjid : j.id = jid := findAnnotator_id hj
  have hcnd : ¬((X.active && Y.active) = true) := by
    rw [hinact]
    exact Bool.false_ne_true
  subst hdb1
  subst hj1
  refine ⟨?_, ?_, ?_, ?_, ?_, ?_, ?_, ?_⟩
  · unfold vote
    rw [hj]
    dsimp only
    rw [hprev, hnext]
    dsimp only
    rw [if_pos hmatch]
    rcases hact with rfl | rfl
    all_goals
      try dsimp only
    all_goals
      rw [if_neg hcnd]
    all_goals
      try dsimp only
    all_goals
      rw [hcand]
  · cases cand with
    | none => rfl
    | some c => rfl
  · intro i
    cases cand with
    | none =>
      exact findApplicant_proj_pres (fun x => (x.mu, x.sigma_sq)) db Y.id
        (fun x => { x with viewed := x.viewed ++ [jid] }) (fun x => rfl) (fun x => rfl) i
    | some c =>
      have h1 := findApplicant_proj_pres (fun x => (x.mu, x.sigma_sq)) db Y.id
        (fun x => { x with viewed := x.viewed ++ [jid] }) (fun x => rfl) (fun x => rfl) i
      have h2 := findApplicant_proj_pres (fun x => (x.mu, x.sigma_sq))
        (mapApplicant db Y.id (fun x => { x with viewed := x.viewed ++ [jid] })) c.id
        (fun x => { x with prioritized := false }) (fun x => rfl) (fun x => rfl) i
      exact h2.trans h1
  · intro i
    cases cand with
    | none =>
      have hj' : findAnnotator
          ((update_next ctx (mapApplicant db Y.id (fun x => { x with viewed := x.viewed ++ [jid] }))
            { j with prev := some Y.id, ignore := j.ignore ++ [Y.id] } none).1) jid = some j := hj
      exact findAnnotator_proj_setAnnotator (fun x => (x.alpha, x.beta)) j jid hj'
        (by exact hjid) (by exact rfl) i
    | some c =>
      have hj' : findAnnotator
          ((update_next ctx (mapApplicant db Y.id (fun x => { x with viewed := x.viewed ++ [jid] }))
            { j with prev := some Y.id, ignore := j.ignore ++ [Y.id] } (some c)).1) jid = some j := hj
      exact findAnnotator_proj_setAnnotator (fun x => (x.alpha, x.beta)) j jid hj'
        (by exact hjid) (by exact rfl) i
  · cases cand with
    | none =>
      rw [findApplicant_setAnnotator]
      try dsimp only [update_next]
      rw [findApplicant_mapApplicant db Y.id
            (fun x => { x with viewed := x.viewed ++ [jid] }) (fun x => rfl) Y.id, hfindY]
      simp only [Option.map_some', eq_self_iff_true, if_true]
      exact ⟨_, rfl, rfl, rfl, rfl⟩
    | some c =>
      rw [findApplicant_setAnnotator]
      try dsimp only [update_next]
      rw [findApplicant_mapApplicant _ c.id
            (fun x => { x with prioritized := false }) (fun x => rfl) Y.id,
          findApplicant_mapApplicant db Y.id
            (fun x => { x with viewed := x.viewed ++ [jid] }) (fun x => rfl) Y.id, hfindY]
      simp only [Option.map_some', eq_self_iff_true, if_true]
      try dsimp only
      by_cases hcx : Y.id = c.id
      · rw [if_pos hcx]
        exact ⟨_, rfl, rfl, rfl, rfl⟩
      · rw [if_neg hcx]
        exact ⟨_, rfl, rfl, rfl, rfl⟩
  · cases cand with
    | none => rfl
    | some c => rfl
  · cases cand with
    | none => exact List.mem_append_right _ (List.mem_singleton_self _)
    | some c => exact List.mem_append_right _ (List.mem_singleton_self _)
  · cases cand with
    | none => rfl
    | some c => rfl

/-- An applicant deactivated in the middle of judging. -/
def wA4 : Applicant := ⟨4, false, false, [], 0, 1⟩

/-- A STEADY judge whose `next` is the deactivated applicant 4. -/
def wJ3 : Annotator := ⟨13, true, 10, 1, some 1, some 4, some 0, [1]⟩

def wDB3 : DB := ⟨[wA1, wA2, wA3, wA4], [wJ3], []⟩

/-- The database after marking applicant 4 as viewed by judge 13. -/
def wdb3 : DB := mapApplicant wDB3 wA4.id (fun x => { x with viewed := x.viewed ++ [13] })

/-- Judge 13 after the vote mutation of its `prev` and `ignore`. -/
def wj3 : Annotator := { wJ3 with prev := some wA4.id, ignore := wJ3.ignore ++ [wA4.id] }

theorem vote_inactive_advance_witness :
    vote wCtx wDB3 13 1 4 VoteAction.Current
      = Except.ok (setAnnotator ((update_next wCtx wdb3 wj3 (some wA2)).1)
          ((update_next wCtx wdb3 wj3 (some wA2)).2))
    ∧ (setAnnotator ((update_next wCtx wdb3 wj3 (some wA2)).1)
          ((update_next wCtx wdb3 wj3 (some wA2)).2)).decisions = wDB3.decisions :=
  ⟨(vote_inactive_advance wCtx wDB3 13 1 4 VoteAction.Current wJ3 wA1 wA4 wdb3 wj3 (some wA2)
      (by decide) (by decide) (by decide) (by decide) (Or.inr rfl) (by decide) rfl rfl rfl).1,
   (vote_inactive_advance wCtx wDB3 13 1 4 VoteAction.Current wJ3 wA1 wA4 wdb3 wj3 (some wA2)
      (by decide) (by decide) (by decide) (by decide) (Or.inr rfl) (by decide) rfl rfl rfl).2.1⟩

end Gavel
